import Mathlib

/-!
Verification development for the Ore tree-walking interpreter.

The definitions below are a shallow embedding of the evaluator in
`src/AST.cpp` (node `execute` bodies), the object model in
`src/Runtime/Object.cpp`, the AST node shapes declared in `Source/AST.h`,
and the FFI module loader in `Source/Runtime/FFIObject.cpp`.

Components of the repository that are only declared or called from these
files (the `Interpreter` scope/run machinery, `Value` operator helpers,
`PropertyKey`, `FunctionObject`'s environment, the heap) are modelled from
the specification; each such definition carries a doc comment starting
with `Modelled from the spec:`.

Machine doubles are modelled as integers (`Int`); no claim settled here
depends on floating-point rounding.  Evaluation carries a fuel parameter;
`Outcome.timeout` arises only from fuel exhaustion and never from the
embedded code itself.
-/

namespace Ore

/-- Runtime value: the tagged union of `Value` (nil, bool, number, heap
reference).  Numbers are modelled as `Int`; a reference is an index into
the heap's object list. -/
inductive Value where
| nil : Value
| bool (b : Bool) : Value
| num (n : Int) : Value
| ref (h : Nat) : Value
deriving DecidableEq

/-- Exception kinds thrown through `throw_exception` (spec section 7). -/
inductive ExcKind where
| referenceError : ExcKind
| typeError : ExcKind
| fileNotFound : ExcKind
deriving DecidableEq

/-- Host-level faults of the C++ code: a failed `assert`, reaching
`__builtin_unreachable()`, `std::optional::value()` on an empty optional,
and `std::map::at` on a missing key. -/
inductive CrashKind where
| assertFail : CrashKind
| unreachableReached : CrashKind
| badOptionalAccess : CrashKind
| mapAtOutOfRange : CrashKind
| invalidHandle : CrashKind
deriving DecidableEq

/-- Result of evaluating one node: a value, a thrown exception, a host
fault, or fuel exhaustion (a model artifact, never produced by the
embedded code). -/
inductive Outcome where
| ok (v : Value) : Outcome
| exn (e : ExcKind) : Outcome
| crash (c : CrashKind) : Outcome
| timeout : Outcome
deriving DecidableEq

/-- Binary operators of `BinaryExpression` used by the claims (the
remaining arithmetic/comparison cases of the `switch` in
`BinaryExpression::execute` are independent of every claim). -/
inductive BinOp where
| Add : BinOp
| And : BinOp
| Or : BinOp
| Xor : BinOp
deriving DecidableEq

/-- AST nodes, shaped after the declarations in `Source/AST.h`:
function declarations carry an optional name and parameters with optional
default-value expressions; member expressions carry a `computed` flag; an
`if` carries an optional alternate; an object literal carries its
key/expression map. -/
inductive Node where
| numberLit (n : Int) : Node
| booleanLit (b : Bool) : Node
| stringLit (s : String) : Node
| nilLit : Node
| identifier (name : String) : Node
| functionDecl (name : Option String) (params : List (String × Option Node))
    (body : List Node) : Node
| callExpr (callee : Node) (args : List Node) : Node
| returnStmt (arg : Node) : Node
| ifStmt (test : Node) (consequent : Node) (alternate : Option Node) : Node
| assignment (lhs : Node) (rhs : Node) : Node
| binary (op : BinOp) (lhs : Node) (rhs : Node) : Node
| member (object : Node) (property : Node) (computed : Bool) : Node
| objectExpr (props : List (String × Node)) : Node
| block (children : List Node) : Node

/-- Heap object variants: plain object, string box, function closure and
native callable.  The function closure's `env` field is the captured
scope reference.  Modelled from the spec for the parts outside `src/`:
`FunctionObject` stores name, body and parameters (as allocated in
`FunctionDeclaration::execute`) together with the scope chain current at
the point of the declaration; a native callable is an opaque host
procedure from argument values to a value. -/
inductive ObjKind where
| plain : ObjKind
| strbox (s : String) : ObjKind
| functionObj (name : Option String) (params : List (String × Option Node))
    (body : List Node) (env : Nat) : ObjKind
| nativeFunc (fn : List Value → Value) : ObjKind

/-- A heap object: its variant tag and its property map (the string-keyed
`m_properties` of `Object`).  The map is an association list; `put`
replaces an existing binding. -/
structure Object where
  kind : ObjKind
  props : List (String × Value)

/-- Indexing into a store (`none` when out of range). -/
def nth {α : Type} : List α → Nat → Option α
  | [], _ => none
  | a :: _, 0 => some a
  | _ :: as, i + 1 => nth as i

/-- Association-list lookup (`std::map::find`). -/
def lookupAssoc {α : Type} : List (String × α) → String → Option α
  | [], _ => none
  | (k, v) :: rest, key => if k = key then some v else lookupAssoc rest key

/-- Association-list insert-or-replace (`std::map::operator[] =`). -/
def insertReplace {α : Type} : List (String × α) → String → α → List (String × α)
  | [], key, v => [(key, v)]
  | (k, w) :: rest, key, v =>
    if k = key then (key, v) :: rest else (k, w) :: insertReplace rest key v

/-- Property keys.  Modelled from the spec: `PropertyKey` is not under
`src/`; "putting/getting by a number key is permitted and internally
coerced to its decimal string form", so a key is always a string and the
number constructor coerces. -/
inductive PropertyKey where
| str (s : String) : PropertyKey
deriving DecidableEq

/-- Modelled from the spec: the `PropertyKey` constructor taking a number
coerces it to its decimal string form. -/
def PropertyKey.ofNumber (n : Int) : PropertyKey := .str (toString n)

/-- The `PropertyKey` constructor taking a string. -/
def PropertyKey.ofString (s : String) : PropertyKey := .str s

/-- Model of `PropertyKey::is_string` — always true in this model since number keys
are coerced on construction. -/
def PropertyKey.is_string : PropertyKey → Bool
  | .str _ => true

/-- Embeds `Object::get`: asserts the key is a string, then returns
`m_properties.at(key.string())` — `std::map::at` throws on a missing key,
so a missing key is a fault, not nil. -/
def Object.get (o : Object) : PropertyKey → Except CrashKind Value
  | .str s =>
    match lookupAssoc o.props s with
    | some v => .ok v
    | none => .error .mapAtOutOfRange

/-- Embeds `Object::put`: asserts the key is a string, then
`m_properties[key.string()] = value`. -/
def Object.put (o : Object) : PropertyKey → Value → Object
  | .str s, v => { o with props := insertReplace o.props s v }

/-- Embeds `Object::contains`: `m_properties.count(key.string())`. -/
def Object.contains (o : Object) : PropertyKey → Bool
  | .str s => (lookupAssoc o.props s).isSome

/-- One scope: its name→value bindings and its parent link.  Modelled
from the spec: the `Interpreter`'s scope structures are not under
`src/`. -/
structure ScopeRec where
  vars : List (String × Value)
  parent : Option Nat

/-- Interpreter state: the store of scopes (a scope reference is an index;
pushed scopes are appended), the heap's object list, the current-scope
pointer, and the `m_do_return` flag used by `ReturnStatement::execute`. -/
structure State where
  scopes : List ScopeRec
  objs : List Object
  cur : Nat
  doReturn : Bool

/-- Walk the scope chain looking a name up, with fuel bounding the walk
(the chain of a well-formed state is a tree whose parent indices strictly
decrease, so fuel `i + 1` always suffices from scope `i`). -/
def lookupChain (scopes : List ScopeRec) : Nat → Nat → String → Option Value
  | 0, _, _ => none
  | fuel + 1, i, name =>
    match nth scopes i with
    | none => none
    | some sc =>
      match lookupAssoc sc.vars name with
      | some v => some v
      | none =>
        match sc.parent with
        | none => none
        | some p => lookupChain scopes fuel p name

/-- Resolution of `Interpreter::get_variable`.  Modelled from the spec:
lookup walks parents until found. -/
def lookupVar (scopes : List ScopeRec) (i : Nat) (name : String) : Option Value :=
  lookupChain scopes (i + 1) i name

/-- Walk the scope chain for the nearest scope already defining a name
(the target of a plain assignment), with fuel as in `lookupChain`. -/
def findDefining (scopes : List ScopeRec) : Nat → Nat → String → Option Nat
  | 0, _, _ => none
  | fuel + 1, i, name =>
    match nth scopes i with
    | none => none
    | some sc =>
      if (lookupAssoc sc.vars name).isSome then some i
      else
        match sc.parent with
        | none => none
        | some p => findDefining scopes fuel p name

/-- Replace the element at an index (identity when out of range). -/
def updateAt {α : Type} : List α → Nat → (α → α) → List α
  | [], _, _ => []
  | a :: as, 0, g => g a :: as
  | a :: as, i + 1, g => a :: updateAt as i g

/-- Embeds `Interpreter::set_variable`.  Modelled from the spec: plain assignment
rebinds in the nearest scope that already defines the name; if no
ancestor defines it, it creates a new binding in the current scope. -/
def setVar (st : State) (name : String) (v : Value) : State :=
  match findDefining st.scopes (st.cur + 1) st.cur name with
  | some i =>
    { st with scopes := (updateAt st.scopes i
        (fun sc => { sc with vars := insertReplace sc.vars name v })) }
  | none =>
    { st with scopes := (updateAt st.scopes st.cur
        (fun sc => { sc with vars := insertReplace sc.vars name v })) }

/-- Embeds `Value::to_boolean`.  Modelled from the spec: nil and false are false;
every other value is true. -/
def truthy : Value → Bool
  | .nil => false
  | .bool b => b
  | _ => true

/-- Embeds `Value::logical_and`.  Modelled from the spec: the result is the
deciding operand, not coerced to bool. -/
def logical_and (a b : Value) : Value := if truthy a then b else a

/-- Embeds `Value::logical_or`.  Modelled from the spec: the result is the
deciding operand, not coerced to bool. -/
def logical_or (a b : Value) : Value := if truthy a then a else b

/-- Embeds `Value::logical_xor`.  Modelled from the spec: `xor` coerces both
sides to bool. -/
def logical_xor (a b : Value) : Value := .bool (xor (truthy a) (truthy b))

/-- Embeds `Value::operator+`.  Modelled from the spec: numbers only; any other
pairing is a TypeError. -/
def valueAdd (a b : Value) : Outcome :=
  match a, b with
  | .num x, .num y => .ok (.num (x + y))
  | _, _ => .exn .typeError

/-- Append a fresh object to the heap (`Heap::allocate`). -/
def allocObj (st : State) (o : Object) : State :=
  { st with objs := st.objs ++ [o] }

/-- Mutate the object at a heap handle through its pointer
(`object->put(key, value)` on a live object). -/
def putAtHandle (st : State) (h : Nat) (key : String) (v : Value) : State :=
  { st with objs := (updateAt st.objs h
      (fun o => { o with props := insertReplace o.props key v })) }

/-- Push a fresh scope and make it current. -/
def pushScope (st : State) (vars : List (String × Value)) (parent : Option Nat) : State :=
  { st with scopes := st.scopes ++ [⟨vars, parent⟩], cur := st.scopes.length }

/-- Embeds `Value::to_object`.  Modelled from the spec: a reference yields its
object; nil/bool/number scalars are auto-boxed into a fresh object with
an empty method table. -/
def toObjectHandle (v : Value) (st : State) : Nat × State :=
  match v with
  | .ref h => (h, st)
  | _ => (st.objs.length, allocObj st ⟨.plain, []⟩)

/-- Extract the property key of a computed member access from the
evaluated property value: a number is coerced to its decimal string; a
reference to a string box yields its content; anything else has no key
(the C++ falls into `__builtin_unreachable`). -/
def keyOfValue (v : Value) (st : State) : Option String :=
  match v with
  | .num n => some (toString n)
  | .ref h =>
    match nth st.objs h with
    | some o =>
      match o.kind with
      | .strbox s => some s
      | _ => none
    | _ => none
  | _ => none

/-- Lexicographic comparison of key strings by character scalar values —
the `std::string` ordering a `std::map` keeps its keys in. -/
def charListLt : List Char → List Char → Bool
  | _, [] => false
  | [], _ :: _ => true
  | c :: cs, d :: ds =>
    if c.toNat < d.toNat then true
    else if d.toNat < c.toNat then false
    else charListLt cs ds

/-- String ordering used by `std::map<std::string, ...>`. -/
def strLt (a b : String) : Bool := charListLt a.data b.data

/-- Insertion of one property into a key-sorted list (helper for the
`std::map` iteration order of `ObjectExpression::m_properties`). -/
def insertProp (p : String × Node) : List (String × Node) → List (String × Node)
  | [] => [p]
  | q :: qs => if strLt p.1 q.1 then p :: q :: qs else q :: insertProp p qs

/-- The key-sorted order in which `std::map` stores and iterates the
properties of an `ObjectExpression` (keys assumed distinct, as a map
holds each key once). -/
def sortProps : List (String × Node) → List (String × Node)
  | [] => []
  | p :: ps => insertProp p (sortProps ps)

/-- Bind evaluated arguments to parameter names, mirroring the
`passed_arguments[function.parameters()[i]] = value` loop
(`std::map` insertion: a repeated name keeps the last value). -/
def bindParams (params : List (String × Option Node)) (vals : List Value) :
    List (String × Value) :=
  (params.zip vals).foldl (fun acc pv => insertReplace acc pv.1.1 pv.2) []

/-- The `Interpreter::run` child loop.  Modelled from the spec: children
evaluate in order, each value discarded; the result is the last child's
value (nil if empty); evaluation stops once `do_return` is raised or a
non-value outcome propagates. -/
def runKids (step : Node → State → Outcome × State) (cs : List Node)
    (st : State) : Outcome × State :=
  cs.foldl (fun acc c =>
    match acc with
    | (.ok _, st1) => if st1.doReturn then acc else step c st1
    | r => r) (.ok .nil, st)

/-- Left-to-right evaluation of a list of argument expressions, stopping
at the first non-value outcome. -/
def evalArgsList (step : Node → State → Outcome × State) (args : List Node)
    (st : State) : Except (Outcome × State) (List Value × State) :=
  args.foldl (fun acc a =>
    match acc with
    | .ok (vals, st1) =>
      match step a st1 with
      | (.ok v, st2) => .ok (vals ++ [v], st2)
      | r => .error r
    | e => e) (.ok ([], st))

/-- The property-filling loop of `ObjectExpression::execute`: for each
key/expression pair evaluate the expression and `put` it on the freshly
allocated object. -/
def putProps (step : Node → State → Outcome × State) (h : Nat)
    (props : List (String × Node)) (st : State) : Outcome × State :=
  match props.foldl (fun acc p =>
    match acc with
    | .ok st1 =>
      match step p.2 st1 with
      | (.ok v, st2) => .ok (putAtHandle st2 h p.1 v)
      | r => .error r
    | e => e) (Except.ok st) with
  | .ok stN => (.ok (.ref h), stN)
  | .error r => r

/-- The evaluator: the `execute` bodies of `src/AST.cpp`, fuelled.
Statement-by-statement notes are on each branch. -/
def evalNode : Nat → Node → State → Outcome × State
  | 0, _, st => (.timeout, st)
  | f + 1, node, st =>
    match node with
    | .numberLit n => (.ok (.num n), st)
    | .booleanLit b => (.ok (.bool b), st)
    | .nilLit => (.ok .nil, st)
    | .stringLit s => (.ok (.ref st.objs.length), allocObj st ⟨.strbox s, []⟩)
    | .identifier nm =>
      match lookupVar st.scopes st.cur nm with
      | some v => (.ok v, st)
      | none => (.exn .referenceError, st)
    | .block cs =>
      let saved := st.cur
      let r := runKids (evalNode f) cs (pushScope st [] (some st.cur))
      (r.1, { r.2 with cur := saved })
    | .functionDecl nameOpt params body =>
      let h := st.objs.length
      let st1 := allocObj st ⟨.functionObj nameOpt params body st.cur, []⟩
      match nameOpt with
      | some nm => (.ok (.ref h), setVar st1 nm (.ref h))
      | none => (.ok (.ref h), st1)
    | .returnStmt a =>
      match evalNode f a st with
      | (.ok v, st1) => (.ok v, { st1 with doReturn := true })
      | r => r
    | .ifStmt te cons alt =>
      match evalNode f te st with
      | (.ok v, st1) =>
        if truthy v then evalNode f cons st1
        else
          match alt with
          | some a => evalNode f a st1
          | none => (.crash .badOptionalAccess, st1)
      | r => r
    | .binary op l r =>
      match evalNode f l st with
      | (.ok v1, st1) =>
        match evalNode f r st1 with
        | (.ok v2, st2) =>
          match op with
          | .Add => (valueAdd v1 v2, st2)
          | .And => (.ok (logical_and v1 v2), st2)
          | .Or => (.ok (logical_or v1 v2), st2)
          | .Xor => (.ok (logical_xor v1 v2), st2)
        | r2 => r2
      | r1 => r1
    | .member objE propE computed =>
      match evalNode f objE st with
      | (.ok ov, st1) =>
        let hs := toObjectHandle ov st1
        if computed then
          match evalNode f propE hs.2 with
          | (.ok pv, st2) =>
            match keyOfValue pv st2 with
            | some key =>
              match nth st2.objs hs.1 with
              | some o =>
                if o.contains (.ofString key) then
                  match o.get (.ofString key) with
                  | .ok v => (.ok v, st2)
                  | .error c => (.crash c, st2)
                else (.ok .nil, st2)
              | none => (.crash .invalidHandle, st2)
            | none => (.crash .unreachableReached, st2)
          | r2 => r2
        else
          match propE with
          | .identifier nm =>
            match nth hs.2.objs hs.1 with
            | some o =>
              if o.contains (.ofString nm) then
                match o.get (.ofString nm) with
                | .ok v => (.ok v, hs.2)
                | .error c => (.crash c, hs.2)
              else (.ok .nil, hs.2)
            | none => (.crash .invalidHandle, hs.2)
          | _ => (.crash .assertFail, hs.2)
      | r1 => r1
    | .objectExpr props =>
      let h := st.objs.length
      putProps (evalNode f) h (sortProps props) (allocObj st ⟨.plain, []⟩)
    | .assignment lhs rhs =>
      match evalNode f rhs st with
      | (.ok v, st1) =>
        match lhs with
        | .identifier nm => (.ok v, setVar st1 nm v)
        | .member objE propE computed =>
          match evalNode f objE st1 with
          | (.ok ov, st2) =>
            let hs := toObjectHandle ov st2
            if computed then
              match evalNode f propE hs.2 with
              | (.ok pv, st3) =>
                match pv with
                | .num n => (.crash .unreachableReached, putAtHandle st3 hs.1 (toString n) v)
                | .ref sh =>
                  match nth st3.objs sh with
                  | some o =>
                    match o.kind with
                    | .strbox s => (.crash .unreachableReached, putAtHandle st3 hs.1 s v)
                    | _ => (.crash .unreachableReached, st3)
                  | none => (.crash .unreachableReached, st3)
                | _ => (.crash .unreachableReached, st3)
              | r3 => r3
            else
              match propE with
              | .identifier nm => (.ok v, putAtHandle hs.2 hs.1 nm v)
              | _ => (.crash .assertFail, hs.2)
          | r2 => r2
        | _ => (.crash .unreachableReached, st1)
      | r1 => r1
    | .callExpr callee args =>
      let calleeRes : Outcome × State :=
        match callee with
        | .identifier nm =>
          match lookupVar st.scopes st.cur nm with
          | some v => (.ok v, st)
          | none => (.exn .referenceError, st)
        | .member _ _ _ => evalNode f callee st
        | _ => (.crash .unreachableReached, st)
      match calleeRes with
      | (.ok cv, st1) =>
        match cv with
        | .ref h =>
          match nth st1.objs h with
          | some o =>
            match o.kind with
            | .functionObj _ params body env =>
              if params.length = args.length then
                match evalArgsList (evalNode f) args st1 with
                | .ok (vals, st2) =>
                  let saved := st2.cur
                  let frame := pushScope st2 (bindParams params vals) (some env)
                  let r := runKids (evalNode f) body frame
                  let st3 := { r.2 with cur := saved }
                  match r.1 with
                  | .ok v =>
                    if st3.doReturn then (.ok v, { st3 with doReturn := false })
                    else (.ok .nil, st3)
                  | o2 => (o2, st3)
                | .error r => r
              else (.crash .assertFail, st1)
            | .nativeFunc fn =>
              match evalArgsList (evalNode f) args st1 with
              | .ok (vals, st2) => (.ok (fn vals), st2)
              | .error r => r
            | _ => (.crash .unreachableReached, st1)
          | none => (.crash .invalidHandle, st1)
        | _ => (.crash .assertFail, st1)
      | r1 => r1

/-- Modelled from the spec: the claim's declaration-order reading of
`ObjectExpression::execute` — property value expressions evaluated in the
order the properties were declared — stated for comparison with the
source's `std::map` (key-sorted) iteration. -/
def objectExprDeclOrder (fuel : Nat) (props : List (String × Node)) (st : State) :
    Outcome × State :=
  putProps (evalNode fuel) st.objs.length props (allocObj st ⟨.plain, []⟩)

/-- Modelled from the spec: a loadable dynamic library as the core sees it
— whether it exposes the fixed `OreInitialize` entry point and the native
callables it registers there. -/
structure FFILib where
  hasInit : Bool
  exports : List (String × (List Value → Value))

/-- Find a library by filename on the host, returning its handle (modelled
as its position) and contents. -/
def findLib : List (String × FFILib) → String → Nat → Option (Nat × FFILib)
  | [], _, _ => none
  | (nm, lib) :: rest, filename, i =>
    if nm = filename then some (i, lib) else findLib rest filename (i + 1)

/-- Modelled from the spec: `dlopen` — a missing library yields no handle. -/
def dlopenModel (host : List (String × FFILib)) (filename : String) :
    Option (Nat × FFILib) :=
  findLib host filename 0

/-- The observable state of an `FFIObject`: the owned library handle
(`m_handle`) and its property map. -/
structure FFIObjectModel where
  handle : Option Nat
  props : List (String × Value)

/-- The property entries written by the export loop of the `FFIObject`
constructor: the i-th export becomes a property referring to the i-th
freshly allocated `NativeFunction` object. -/
def exportProps : Nat → List (String × (List Value → Value)) → List (String × Value)
  | _, [] => []
  | i, (nm, _) :: rest => (nm, .ref i) :: exportProps (i + 1) rest

/-- Embeds `FFIObject::FFIObject`: `dlopen` the file (failure throws
FileNotFound and leaves a null handle); look up `OreInitialize` (absence
throws ReferenceError); otherwise store one property per exported native
callable, each a reference to a freshly allocated `NativeFunction`.
The triple is (object state, thrown exception if any, objects allocated
on the heap). -/
def FFIObject.construct (host : List (String × FFILib)) (heapLen : Nat)
    (filename : String) : FFIObjectModel × Option ExcKind × List Object :=
  match dlopenModel host filename with
  | none => (⟨none, []⟩, some .fileNotFound, [])
  | some (h, lib) =>
    if lib.hasInit then
      (⟨some h, exportProps heapLen lib.exports⟩, none,
        lib.exports.map (fun p => ⟨.nativeFunc p.2, []⟩))
    else (⟨some h, []⟩, some .referenceError, [])

/-- Embeds `FFIObject::~FFIObject`: `dlclose(m_handle)` — the destructor releases
exactly the stored handle.  Modelled from the spec for the trigger: the
sweep phase destroys unreachable objects, running this destructor. -/
def FFIObject.destructorCloses (o : FFIObjectModel) : Option Nat := o.handle

/-- Well-formed scope stores: every parent link points to an older
(smaller-index) scope, so chains are finite and appending a scope never
disturbs existing chains.  Every state built by the evaluator satisfies
this, since pushed scopes are appended with an existing parent. -/
def scopesWF (scopes : List ScopeRec) : Prop :=
  ∀ i sc p, nth scopes i = some sc → sc.parent = some p → p < i

/-- Executable check for `scopesWF`, offset by the index of the first
element. -/
def scopesWFbAux : Nat → List ScopeRec → Bool
  | _, [] => true
  | i, sc :: rest =>
    (match sc.parent with
     | none => true
     | some p => decide (p < i)) && scopesWFbAux (i + 1) rest

/-- Executable check for `scopesWF`. -/
def scopesWFb (scopes : List ScopeRec) : Bool := scopesWFbAux 0 scopes

/-- Base state: one empty root scope, empty heap. -/
def st0 : State := { scopes := [⟨[], none⟩], objs := [], cur := 0, doReturn := false }

/-- State with `f` bound to a number — a non-object callee. -/
def stNumCallee : State :=
  { scopes := [⟨[("f", .num 5)], none⟩], objs := [], cur := 0, doReturn := false }

/-- State with `g` bound to a plain (non-callable) object. -/
def stPlainCallee : State :=
  { scopes := [⟨[("g", .ref 0)], none⟩], objs := [⟨.plain, [("a", .nil)]⟩], cur := 0,
    doReturn := false }

/-- State with `o` bound to an empty plain object. -/
def stEmptyObj : State :=
  { scopes := [⟨[("o", .ref 0)], none⟩], objs := [⟨.plain, []⟩], cur := 0,
    doReturn := false }

/-- State binding `f` to a one-parameter closure (parameter `p`, body
`return p`, no default). -/
def stOneParam : State :=
  { scopes := [⟨[("f", .ref 0)], none⟩],
    objs := [⟨.functionObj (some "f") [("p", none)] [.returnStmt (.identifier "p")] 0, []⟩],
    cur := 0, doReturn := false }

/-- State binding `f` to a closure whose single parameter has a default
expression. -/
def stWithDefault : State :=
  { scopes := [⟨[("f", .ref 0)], none⟩],
    objs := [⟨.functionObj (some "f") [("p", some (.numberLit 99))]
      [.returnStmt (.identifier "p")] 0, []⟩],
    cur := 0, doReturn := false }

/-- State for the C2 witness: `n` and `f` live in the root scope; `f`'s
closure captured that scope. -/
def stClosure : State :=
  { scopes := [⟨[("f", .ref 0), ("n", .num 5)], none⟩],
    objs := [⟨.functionObj none [] [.returnStmt (.identifier "n")] 0, []⟩],
    cur := 0, doReturn := false }

/-- State with `o` holding a property under the decimal-string key "1". -/
def stNumKey : State :=
  { scopes := [⟨[("o", .ref 0)], none⟩], objs := [⟨.plain, [("1", .num 77)]⟩],
    cur := 0, doReturn := false }

/-- Object literal whose keys are declared in the order `b`, `a`, with
observably ordered side effects. -/
def c7props : List (String × Node) :=
  [("b", .assignment (.identifier "x") (.numberLit 1)),
   ("a", .assignment (.identifier "x") (.numberLit 2))]

lemma lookupAssoc_insertReplace_self {α : Type} (l : List (String × α)) (k : String) (v : α) :
    lookupAssoc (insertReplace l k v) k = some v := by
  induction l with
  | nil => simp [insertReplace, lookupAssoc]
  | cons p rest ih =>
    obtain ⟨k', w⟩ := p
    by_cases h : k' = k
    · simp [insertReplace, h, lookupAssoc]
    · simp [insertReplace, h, lookupAssoc, ih]

lemma nth_updateAt_eq {α : Type} :
    ∀ (l : List α) (i : Nat) (g : α → α),
      nth (updateAt l i g) i = (nth l i).map g := by
  intro l
  induction l with
  | nil => intro i g; simp [updateAt, nth]
  | cons a as ih =>
    intro i g
    cases i with
    | zero => simp [updateAt, nth]
    | succ j => simpa [updateAt, nth] using ih j g

lemma nth_updateAt_ne {α : Type} :
    ∀ (l : List α) (i : Nat) (g : α → α) (j : Nat), i ≠ j →
      nth (updateAt l i g) j = nth l j := by
  intro l
  induction l with
  | nil => intro i g j _; simp [updateAt]
  | cons a as ih =>
    intro i g j hij
    cases i with
    | zero =>
      cases j with
      | zero => exact absurd rfl hij
      | succ j' => simp [updateAt, nth]
    | succ i' =>
      cases j with
      | zero => simp [updateAt, nth]
      | succ j' => simpa [updateAt, nth] using ih i' g j' (by omega)

lemma scopesWF_of_aux :
    ∀ (l : List ScopeRec) (k : Nat), scopesWFbAux k l = true →
      ∀ i sc p, nth l i = some sc → sc.parent = some p → p < k + i := by
  intro l
  induction l with
  | nil => intro k _ i sc p h; simp [nth] at h
  | cons hd rest ih =>
    intro k hb i sc p hget hpar
    simp only [scopesWFbAux, Bool.and_eq_true] at hb
    cases i with
    | zero =>
      simp only [nth] at hget
      cases hget
      rw [hpar] at hb
      have := of_decide_eq_true hb.1
      omega
    | succ i' =>
      simp only [nth] at hget
      have := ih (k + 1) hb.2 i' sc p hget hpar
      omega

lemma scopesWF_of_b {scopes : List ScopeRec} (h : scopesWFb scopes = true) :
    scopesWF scopes := by
  intro i sc p hget hpar
  have := scopesWF_of_aux scopes 0 h i sc p hget hpar
  omega

lemma findDefining_mem {scopes : List ScopeRec} {nm : String} :
    ∀ (fuel i j : Nat), findDefining scopes fuel i nm = some j →
      ∃ sc, nth scopes j = some sc ∧ (lookupAssoc sc.vars nm).isSome = true := by
  intro fuel
  induction fuel with
  | zero => intro i j h; simp [findDefining] at h
  | succ f ih =>
    intro i j h
    cases hget : nth scopes i with
    | none => simp [findDefining, hget] at h
    | some sc =>
      simp only [findDefining, hget] at h
      by_cases hc : (lookupAssoc sc.vars nm).isSome = true
      · rw [if_pos hc] at h
        cases h
        exact ⟨sc, hget, hc⟩
      · rw [if_neg hc] at h
        cases hpar : sc.parent with
        | none => rw [hpar] at h; exact absurd h (by simp)
        | some p => rw [hpar] at h; exact ih p j h

lemma lookupChain_updateAt_found {scopes : List ScopeRec} {nm : String} {v : Value} :
    ∀ (fuel i j : Nat), findDefining scopes fuel i nm = some j →
      lookupChain (updateAt scopes j
          (fun sc => { sc with vars := insertReplace sc.vars nm v })) fuel i nm = some v := by
  intro fuel
  induction fuel with
  | zero => intro i j h; simp [findDefining] at h
  | succ f ih =>
    intro i j h
    cases hget : nth scopes i with
    | none => simp [findDefining, hget] at h
    | some sc =>
      simp only [findDefining, hget] at h
      by_cases hc : (lookupAssoc sc.vars nm).isSome = true
      · rw [if_pos hc] at h
        cases h
        simp only [lookupChain, nth_updateAt_eq, hget, Option.map_some',
          lookupAssoc_insertReplace_self]
      · rw [if_neg hc] at h
        cases hpar : sc.parent with
        | none => rw [hpar] at h; exact absurd h (by simp)
        | some p =>
          rw [hpar] at h
          obtain ⟨scj, hgetj, hcj⟩ := findDefining_mem f p j h
          have hij : j ≠ i := by
            intro he
            rw [he, hget] at hgetj
            cases hgetj
            exact hc hcj
          have hup : nth (updateAt scopes j
              (fun sc => { sc with vars := insertReplace sc.vars nm v })) i
              = some sc := by
            rw [nth_updateAt_ne _ _ _ _ hij, hget]
          cases hl : lookupAssoc sc.vars nm with
          | some w => rw [hl] at hc; simp at hc
          | none =>
            simp only [lookupChain, hup, hl, hpar]
            exact ih p j h

lemma nth_of_lt {α : Type} : ∀ (l : List α) (i : Nat), i < l.length → ∃ a, nth l i = some a := by
  intro l
  induction l with
  | nil => intro i h; simp at h
  | cons a as ih =>
    intro i h
    cases i with
    | zero => exact ⟨a, rfl⟩
    | succ j => exact ih j (by simpa using h)

lemma nth_append_left {α : Type} :
    ∀ (l l' : List α) (i : Nat), i < l.length → nth (l ++ l') i = nth l i := by
  intro l
  induction l with
  | nil => intro l' i h; simp at h
  | cons a as ih =>
    intro l' i h
    cases i with
    | zero => rfl
    | succ j => exact ih l' j (by simpa using h)

lemma nth_concat_length {α : Type} :
    ∀ (l : List α) (a : α), nth (l ++ [a]) l.length = some a := by
  intro l a
  induction l with
  | nil => rfl
  | cons b bs ih => simpa using ih

lemma nth_map {α β : Type} (f : α → β) :
    ∀ (l : List α) (i : Nat), nth (l.map f) i = (nth l i).map f := by
  intro l
  induction l with
  | nil => intro i; rfl
  | cons a as ih =>
    intro i
    cases i with
    | zero => rfl
    | succ j => exact ih j

lemma exportProps_nth :
    ∀ (exports : List (String × (List Value → Value))) (base i : Nat)
      (nm : String) (fn : List Value → Value),
      nth exports i = some (nm, fn) →
      nth (exportProps base exports) i = some (nm, .ref (base + i)) := by
  intro exports
  induction exports with
  | nil => intro base i nm fn h; simp [nth] at h
  | cons e rest ih =>
    intro base i nm fn h
    obtain ⟨enm, efn⟩ := e
    cases i with
    | zero =>
      simp only [nth] at h
      cases h
      simp [exportProps, nth]
    | succ j =>
      simp only [nth] at h
      have := ih (base + 1) j nm fn h
      simpa [exportProps, nth, Nat.add_assoc, Nat.add_comm 1 j] using this

lemma lookupVar_setVar (st : State) (nm : String) (v : Value)
    (hcur : st.cur < st.scopes.length) :
    (setVar st nm v).cur = st.cur ∧ (setVar st nm v).objs = st.objs ∧
    (setVar st nm v).doReturn = st.doReturn ∧
    lookupVar (setVar st nm v).scopes st.cur nm = some v := by
  cases hfd : findDefining st.scopes (st.cur + 1) st.cur nm with
  | some i =>
    have h1 : setVar st nm v = { st with scopes := (updateAt st.scopes i
        (fun sc => { sc with vars := insertReplace sc.vars nm v })) } := by
      simp only [setVar, hfd]
    rw [h1]
    exact ⟨rfl, rfl, rfl, lookupChain_updateAt_found (st.cur + 1) st.cur i hfd⟩
  | none =>
    obtain ⟨sc, hsc⟩ := nth_of_lt st.scopes st.cur hcur
    have h1 : setVar st nm v = { st with scopes := (updateAt st.scopes st.cur
        (fun sc => { sc with vars := insertReplace sc.vars nm v })) } := by
      simp only [setVar, hfd]
    rw [h1]
    refine ⟨rfl, rfl, rfl, ?_⟩
    simp only [lookupVar, lookupChain, nth_updateAt_eq, hsc, Option.map_some',
      lookupAssoc_insertReplace_self]

lemma lookupChain_append {scopes : List ScopeRec} {nm : String} (hwf : scopesWF scopes)
    (s : ScopeRec) :
    ∀ (fuel i : Nat), i < scopes.length →
      lookupChain (scopes ++ [s]) fuel i nm = lookupChain scopes fuel i nm := by
  intro fuel
  induction fuel with
  | zero => intro i _; simp [lookupChain]
  | succ f ih =>
    intro i hi
    have hnth : nth (scopes ++ [s]) i = nth scopes i := nth_append_left scopes [s] i hi
    simp only [lookupChain, hnth]
    cases hsc : nth scopes i with
    | none => simp
    | some sc =>
      cases hl : lookupAssoc sc.vars nm with
      | some w => simp [hl]
      | none =>
        cases hpar : sc.parent with
        | none => simp [hl, hpar]
        | some p =>
          have hp : p < i := hwf i sc p hsc hpar
          simp only [hl, hpar]
          exact ih p (by omega)

lemma lookupChain_fuel {scopes : List ScopeRec} {nm : String} (hwf : scopesWF scopes) :
    ∀ (i f g : Nat), i < f → i < g →
      lookupChain scopes f i nm = lookupChain scopes g i nm := by
  intro i
  induction i using Nat.strong_induction_on with
  | _ i ih =>
    intro f g hf hg
    cases f with
    | zero => omega
    | succ f' =>
      cases g with
      | zero => omega
      | succ g' =>
        simp only [lookupChain]
        cases hsc : nth scopes i with
        | none => simp
        | some sc =>
          cases hl : lookupAssoc sc.vars nm with
          | some w => simp [hl]
          | none =>
            cases hpar : sc.parent with
            | none => simp [hl, hpar]
            | some p =>
              have hp : p < i := hwf i sc p hsc hpar
              simp only [hl, hpar]
              exact ih p hp f' g' (by omega) (by omega)

lemma nth_some_lt {α : Type} :
    ∀ (l : List α) (i : Nat) (a : α), nth l i = some a → i < l.length := by
  intro l
  induction l with
  | nil => intro i a h; simp [nth] at h
  | cons b bs ih =>
    intro i a h
    cases i with
    | zero => simp
    | succ j =>
      simp only [nth] at h
      have := ih j a h
      simp
      omega

/-- C1 counterexample: in `false and (x = 42)` the left operand is falsy
and the result is its value, yet the right-hand assignment *was*
evaluated — its binding of `x` is visible afterwards — because
`BinaryExpression::execute` evaluates both operands before dispatching on
the operator.  This refutes the claim that the right-hand operand is not
evaluated. -/
theorem c1_short_circuit_refuted :
    (evalNode 3 (.binary .And (.booleanLit false)
        (.assignment (.identifier "x") (.numberLit 42))) st0).1 = .ok (.bool false) ∧
    lookupVar (evalNode 3 (.binary .And (.booleanLit false)
        (.assignment (.identifier "x") (.numberLit 42))) st0).2.scopes 0 "x"
      = some (.num 42) ∧
    lookupVar st0.scopes 0 "x" = none :=
  ⟨rfl, rfl, rfl⟩

/-- C1 (amended): `BinaryExpression::execute` evaluates both operands of
`and`/`or` unconditionally (the right operand's side effects always
occur); the result is still the deciding operand — the left value when it
is falsy for `and`, the left value when it is truthy for `or`. -/
theorem c1_and_or_evaluate_both_operands :
    (∀ (f : Nat) (l r : Node) (st : State) (v1 : Value) (st1 : State)
        (v2 : Value) (st2 : State),
      evalNode f l st = (.ok v1, st1) → truthy v1 = false →
      evalNode f r st1 = (.ok v2, st2) →
      evalNode (f + 1) (.binary .And l r) st = (.ok v1, st2)) ∧
    (∀ (f : Nat) (l r : Node) (st : State) (v1 : Value) (st1 : State)
        (v2 : Value) (st2 : State),
      evalNode f l st = (.ok v1, st1) → truthy v1 = true →
      evalNode f r st1 = (.ok v2, st2) →
      evalNode (f + 1) (.binary .Or l r) st = (.ok v1, st2)) := by
  constructor
  · intro f l r st v1 st1 v2 st2 h1 ht h2
    simp only [evalNode, h1, h2, logical_and, ht, Bool.false_eq_true, if_false]
  · intro f l r st v1 st1 v2 st2 h1 ht h2
    simp only [evalNode, h1, h2, logical_or, ht, if_true]

/-- C1 witness: concrete instance of the amended theorem. -/
theorem c1_and_or_witness :
    evalNode 3 (.binary .And (.booleanLit false)
        (.assignment (.identifier "y") (.numberLit 7))) st0
      = (.ok (.bool false),
         { scopes := [⟨[("y", Value.num 7)], none⟩], objs := [], cur := 0,
           doReturn := false }) :=
  c1_and_or_evaluate_both_operands.1 2 (.booleanLit false)
    (.assignment (.identifier "y") (.numberLit 7)) st0 (.bool false) st0 (.num 7)
    { scopes := [⟨[("y", Value.num 7)], none⟩], objs := [], cur := 0, doReturn := false }
    rfl rfl rfl

/-- One-step unfolding of the evaluator at an `if` statement. -/
lemma evalNode_ifStmt (f : Nat) (te cons : Node) (alt : Option Node) (st : State) :
    evalNode (f + 1) (.ifStmt te cons alt) st
      = match evalNode f te st with
        | (.ok v, st1) =>
          if truthy v then evalNode f cons st1
          else
            match alt with
            | some a => evalNode f a st1
            | none => (.crash .badOptionalAccess, st1)
        | r => r := rfl

/-- One-step unfolding of the evaluator at a binary expression. -/
lemma evalNode_binary (f : Nat) (op : BinOp) (l r : Node) (st : State) :
    evalNode (f + 1) (.binary op l r) st
      = match evalNode f l st with
        | (.ok v1, st1) =>
          match evalNode f r st1 with
          | (.ok v2, st2) =>
            match op with
            | .Add => (valueAdd v1 v2, st2)
            | .And => (.ok (logical_and v1 v2), st2)
            | .Or => (.ok (logical_or v1 v2), st2)
            | .Xor => (.ok (logical_xor v1 v2), st2)
          | r2 => r2
        | r1 => r1 := rfl

/-- One-step unfolding of the evaluator at a block. -/
lemma evalNode_block (f : Nat) (cs : List Node) (st : State) :
    evalNode (f + 1) (.block cs) st
      = ((runKids (evalNode f) cs (pushScope st [] (some st.cur))).1,
         { (runKids (evalNode f) cs (pushScope st [] (some st.cur))).2 with cur := st.cur }) := rfl

/-- One-step unfolding of the evaluator at a function declaration. -/
lemma evalNode_functionDecl (f : Nat) (nameOpt : Option String)
    (params : List (String × Option Node)) (body : List Node) (st : State) :
    evalNode (f + 1) (.functionDecl nameOpt params body) st
      = match nameOpt with
        | some nm =>
          (.ok (.ref st.objs.length),
            setVar (allocObj st ⟨.functionObj nameOpt params body st.cur, []⟩) nm
              (.ref st.objs.length))
        | none =>
          (.ok (.ref st.objs.length),
            allocObj st ⟨.functionObj nameOpt params body st.cur, []⟩) := rfl

/-- One-step unfolding of the evaluator at a return statement. -/
lemma evalNode_returnStmt (f : Nat) (a : Node) (st : State) :
    evalNode (f + 1) (.returnStmt a) st
      = match evalNode f a st with
        | (.ok v, st1) => (.ok v, { st1 with doReturn := true })
        | r => r := rfl

/-- One-step unfolding of the evaluator at an identifier. -/
lemma evalNode_identifier (f : Nat) (nm : String) (st : State) :
    evalNode (f + 1) (.identifier nm) st
      = match lookupVar st.scopes st.cur nm with
        | some v => (.ok v, st)
        | none => (.exn .referenceError, st) := rfl

/-- One-step unfolding of the evaluator at a member expression. -/
lemma evalNode_member (f : Nat) (objE propE : Node) (computed : Bool) (st : State) :
    evalNode (f + 1) (.member objE propE computed) st
      = match evalNode f objE st with
        | (.ok ov, st1) =>
          if computed then
            match evalNode f propE (toObjectHandle ov st1).2 with
            | (.ok pv, st2) =>
              match keyOfValue pv st2 with
              | some key =>
                match nth st2.objs (toObjectHandle ov st1).1 with
                | some o =>
                  if o.contains (.ofString key) then
                    match o.get (.ofString key) with
                    | .ok v => (.ok v, st2)
                    | .error c => (.crash c, st2)
                  else (.ok .nil, st2)
                | none => (.crash .invalidHandle, st2)
              | none => (.crash .unreachableReached, st2)
            | r2 => r2
          else
            match propE with
            | .identifier nm =>
              match nth (toObjectHandle ov st1).2.objs (toObjectHandle ov st1).1 with
              | some o =>
                if o.contains (.ofString nm) then
                  match o.get (.ofString nm) with
                  | .ok v => (.ok v, (toObjectHandle ov st1).2)
                  | .error c => (.crash c, (toObjectHandle ov st1).2)
                else (.ok .nil, (toObjectHandle ov st1).2)
              | none => (.crash .invalidHandle, (toObjectHandle ov st1).2)
            | _ => (.crash .assertFail, (toObjectHandle ov st1).2)
        | r1 => r1 := rfl

/-- One-step unfolding of the evaluator at an object literal. -/
lemma evalNode_objectExpr (f : Nat) (props : List (String × Node)) (st : State) :
    evalNode (f + 1) (.objectExpr props) st
      = putProps (evalNode f) st.objs.length (sortProps props) (allocObj st ⟨.plain, []⟩) := rfl

/-- One-step unfolding of the evaluator at a call whose callee is an
identifier. -/
lemma evalNode_call_identifier (f : Nat) (nm : String) (args : List Node) (st : State) :
    evalNode (f + 1) (.callExpr (.identifier nm) args) st
      = match (match lookupVar st.scopes st.cur nm with
               | some v => ((.ok v : Outcome), st)
               | none => ((.exn .referenceError : Outcome), st)) with
        | (.ok cv, st1) =>
          match cv with
          | .ref h =>
            match nth st1.objs h with
            | some o =>
              match o.kind with
              | .functionObj _ params body env =>
                if params.length = args.length then
                  match evalArgsList (evalNode f) args st1 with
                  | .ok (vals, st2) =>
                    let saved := st2.cur
                    let frame := pushScope st2 (bindParams params vals) (some env)
                    let r := runKids (evalNode f) body frame
                    let st3 := { r.2 with cur := saved }
                    match r.1 with
                    | .ok v =>
                      if st3.doReturn then (.ok v, { st3 with doReturn := false })
                      else (.ok .nil, st3)
                    | o2 => (o2, st3)
                  | .error r => r
                else (.crash .assertFail, st1)
              | .nativeFunc fn =>
                match evalArgsList (evalNode f) args st1 with
                | .ok (vals, st2) => (.ok (fn vals), st2)
                | .error r => r
              | _ => (.crash .unreachableReached, st1)
            | none => (.crash .invalidHandle, st1)
          | _ => (.crash .assertFail, st1)
        | r1 => r1 := rfl

/-- One-step unfolding of the evaluator at an assignment. -/
lemma evalNode_assignment (f : Nat) (lhs rhs : Node) (st : State) :
    evalNode (f + 1) (.assignment lhs rhs) st
      = match evalNode f rhs st with
        | (.ok v, st1) =>
          match lhs with
          | .identifier nm => (.ok v, setVar st1 nm v)
          | .member objE propE computed =>
            match evalNode f objE st1 with
            | (.ok ov, st2) =>
              if computed then
                match evalNode f propE (toObjectHandle ov st2).2 with
                | (.ok pv, st3) =>
                  match pv with
                  | .num n =>
                    (.crash .unreachableReached,
                      putAtHandle st3 (toObjectHandle ov st2).1 (toString n) v)
                  | .ref sh =>
                    match nth st3.objs sh with
                    | some o =>
                      match o.kind with
                      | .strbox s =>
                        (.crash .unreachableReached,
                          putAtHandle st3 (toObjectHandle ov st2).1 s v)
                      | _ => (.crash .unreachableReached, st3)
                    | none => (.crash .unreachableReached, st3)
                  | _ => (.crash .unreachableReached, st3)
                | r3 => r3
              else
                match propE with
                | .identifier nm =>
                  (.ok v, putAtHandle (toObjectHandle ov st2).2 (toObjectHandle ov st2).1 nm v)
                | _ => (.crash .assertFail, (toObjectHandle ov st2).2)
            | r2 => r2
          | _ => (.crash .unreachableReached, st1)
        | r1 => r1 := rfl

/-- C8 counterexample: an `if` with a falsy test and no `else` does not
complete with nil — `IfStatement::execute` unconditionally calls the
alternate accessor, which is `std::optional::value()` on an empty
optional. -/
theorem c8_missing_else_crashes :
    evalNode 2 (.ifStmt (.booleanLit false) (.block []) none) st0
      = (.crash .badOptionalAccess, st0) ∧
    (evalNode 2 (.ifStmt (.booleanLit false) (.block []) none) st0).1 ≠ .ok .nil :=
  ⟨rfl, by decide⟩

/-- C8 (amended): when the test is falsy, `IfStatement::execute` always
executes the alternate accessor; with the `else` branch absent this
faults with `bad_optional_access` instead of yielding nil, while an
explicit empty `else` block yields nil. -/
theorem c8_falsy_test_alternate :
    ∀ (f : Nat) (st : State) (te cons : Node) (v : Value) (st1 : State),
      evalNode (f + 1) te st = (.ok v, st1) → truthy v = false →
      evalNode (f + 1 + 1) (.ifStmt te cons none) st = (.crash .badOptionalAccess, st1) ∧
      (evalNode (f + 1 + 1) (.ifStmt te cons (some (.block []))) st).1 = .ok .nil := by
  intro f st te cons v st1 h1 ht
  constructor
  · rw [evalNode_ifStmt, h1]
    simp only [ht, Bool.false_eq_true, if_false]
  · rw [evalNode_ifStmt, h1]
    simp only [ht, Bool.false_eq_true, if_false, evalNode_block, runKids, List.foldl]

/-- C8 witness: concrete instance of the amended theorem. -/
theorem c8_witness :
    evalNode 3 (.ifStmt .nilLit (.block []) none) st0
      = (.crash .badOptionalAccess, st0) ∧
    (evalNode 3 (.ifStmt .nilLit (.block []) (some (.block []))) st0).1 = .ok .nil :=
  c8_falsy_test_alternate 1 st0 .nilLit (.block []) .nil st0 rfl rfl

/-- C5 counterexample: calling a number does not throw TypeError —
`CallExpression::execute` hits `assert(value.is_object())` and aborts. -/
theorem c5_non_callable_no_type_error :
    evalNode 1 (.callExpr (.identifier "f") []) stNumCallee
      = (.crash .assertFail, stNumCallee) ∧
    (evalNode 1 (.callExpr (.identifier "f") []) stNumCallee).1 ≠ .exn .typeError :=
  ⟨rfl, by decide⟩

/-- C5 (amended): a callee that is not an object fails the
`assert(value.is_object())` in `CallExpression::execute`; an object
callee that is neither a function closure nor a native callable falls to
`__builtin_unreachable()`.  No TypeError is thrown on either path. -/
theorem c5_non_callable_crashes :
    (∀ (f : Nat) (st : State) (nm : String) (args : List Node) (n : Int),
      lookupVar st.scopes st.cur nm = some (.num n) →
      evalNode (f + 1) (.callExpr (.identifier nm) args) st = (.crash .assertFail, st)) ∧
    (∀ (f : Nat) (st : State) (nm : String) (args : List Node) (h : Nat)
        (props : List (String × Value)),
      lookupVar st.scopes st.cur nm = some (.ref h) →
      nth st.objs h = some ⟨.plain, props⟩ →
      evalNode (f + 1) (.callExpr (.identifier nm) args) st
        = (.crash .unreachableReached, st)) := by
  constructor
  · intro f st nm args n hl
    rw [evalNode_call_identifier, hl]
  · intro f st nm args h props hl ho
    rw [evalNode_call_identifier, hl]
    simp only [ho]

/-- C5 witness: concrete instance of the amended theorem for the
non-callable-object branch. -/
theorem c5_witness :
    evalNode 1 (.callExpr (.identifier "g") []) stPlainCallee
      = (.crash .unreachableReached, stPlainCallee) :=
  c5_non_callable_crashes.2 0 stPlainCallee "g" [] 0 [("a", .nil)] rfl rfl

/-- C10 (code bug): for the computed member assignment `o[0] = 1` with a
number key, `AssignmentExpression::execute` performs the property put and
then falls through to the `__builtin_unreachable()` that ends the
computed branch — the marker is not dead code, because neither key branch
returns before it and no `else` guards it (contrast
`MemberExpression::execute`, where the marker sits in the final `else`). -/
theorem c10_put_then_unreachable :
    (evalNode 3 (.assignment (.member (.identifier "o") (.numberLit 0) true)
        (.numberLit 1)) stEmptyObj).1 = .crash .unreachableReached ∧
    nth (evalNode 3 (.assignment (.member (.identifier "o") (.numberLit 0) true)
        (.numberLit 1)) stEmptyObj).2.objs 0 = some ⟨.plain, [("0", .num 1)]⟩ ∧
    (evalNode 3 (.assignment (.member (.identifier "o") (.numberLit 0) true)
        (.numberLit 1)) stEmptyObj).1 ≠ .ok (.num 1) :=
  ⟨rfl, rfl, by decide⟩

/-- One-step unfolding of the evaluator at a string literal. -/
lemma evalNode_stringLit (f : Nat) (sv : String) (st : State) :
    evalNode (f + 1) (.stringLit sv) st
      = (.ok (.ref st.objs.length), allocObj st ⟨.strbox sv, []⟩) := rfl

/-- C3 counterexample: `Object::get` on a missing key is
`std::map::at` on an absent key — a fault, not nil. -/
theorem c3_get_missing_key_not_nil :
    Object.get ⟨.plain, []⟩ (.ofString "x") = .error .mapAtOutOfRange ∧
    Object.get ⟨.plain, []⟩ (.ofString "x") ≠ .ok Value.nil :=
  ⟨rfl, fun h => nomatch h⟩

/-- C3 (amended): a member expression on a missing property evaluates to
nil only because `MemberExpression::execute` checks `contains` before
calling `get`; `Object::get` itself on a missing key faults
(`std::map::at` out of range) instead of returning nil. -/
theorem c3_missing_property_semantics :
    (∀ (o : Object) (k : String), o.contains (.ofString k) = false →
      o.get (.ofString k) = .error .mapAtOutOfRange) ∧
    (∀ (f : Nat) (st : State) (h : Nat) (o : Object) (k : String),
      nth st.objs h = some o → o.contains (.ofString k) = false →
      lookupVar st.scopes st.cur "o" = some (.ref h) →
      (evalNode (f + 1 + 1) (.member (.identifier "o") (.stringLit k) true) st).1
        = .ok .nil) := by
  constructor
  · intro o k hc
    cases hlk : lookupAssoc o.props k with
    | some v => simp [Object.contains, PropertyKey.ofString, hlk] at hc
    | none => simp [Object.get, PropertyKey.ofString, hlk]
  · intro f st h o k ho hc hl
    have hlt := nth_some_lt st.objs h o ho
    have hkey : nth (st.objs ++ [(⟨.strbox k, []⟩ : Object)]) st.objs.length
        = some ⟨.strbox k, []⟩ := nth_concat_length _ _
    have hobj : nth (st.objs ++ [(⟨.strbox k, []⟩ : Object)]) h = some o := by
      rw [nth_append_left _ _ _ hlt]; exact ho
    rw [evalNode_member, evalNode_identifier, hl]
    simp only [toObjectHandle, evalNode_stringLit, allocObj, keyOfValue, hkey, hobj, hc,
      Bool.false_eq_true, if_false, if_true]

/-- C3 witness: concrete instance of the amended theorem. -/
theorem c3_witness :
    (evalNode 2 (.member (.identifier "o") (.stringLit "missing") true) stEmptyObj).1
      = .ok .nil :=
  c3_missing_property_semantics.2 0 stEmptyObj 0 ⟨.plain, []⟩ "missing" rfl rfl rfl

/-- One-step unfolding of the evaluator at a number literal. -/
lemma evalNode_numberLit (f : Nat) (n : Int) (st : State) :
    evalNode (f + 1) (.numberLit n) st = (.ok (.num n), st) := rfl

/-- One-step unfolding of the evaluator at a nil literal. -/
lemma evalNode_nilLit (f : Nat) (st : State) :
    evalNode (f + 1) .nilLit st = (.ok .nil, st) := rfl

/-- C4 counterexample: calling a one-parameter closure with no arguments
does not bind nil and run the body — `CallExpression::execute` asserts
`function.parameters().size() == m_arguments.size()` and aborts. -/
theorem c4_fewer_arguments_assert :
    evalNode 1 (.callExpr (.identifier "f") []) stOneParam
      = (.crash .assertFail, stOneParam) ∧
    (evalNode 1 (.callExpr (.identifier "f") []) stOneParam).1 ≠ .ok .nil :=
  ⟨rfl, by decide⟩

/-- C4 (amended): a call must supply exactly as many arguments as the
closure has parameters — any mismatch trips the arity assertion before
arguments are evaluated; with matching arity each argument is evaluated
and bound positionally to the parameter name, and the parameter's
default-value expression is never consulted (the result is independent
of it). -/
theorem c4_call_arity_and_binding :
    (∀ (f : Nat) (st : State) (nm : String) (args : List Node) (h : Nat)
        (fname : Option String) (params : List (String × Option Node))
        (body : List Node) (env : Nat) (fprops : List (String × Value)),
      lookupVar st.scopes st.cur nm = some (.ref h) →
      nth st.objs h = some ⟨.functionObj fname params body env, fprops⟩ →
      params.length ≠ args.length →
      evalNode (f + 1) (.callExpr (.identifier nm) args) st = (.crash .assertFail, st)) ∧
    (∀ (f : Nat) (st : State) (h : Nat) (p : String) (dflt : Option Node) (n : Int)
        (env : Nat) (fname : Option String) (fprops : List (String × Value)),
      st.doReturn = false →
      lookupVar st.scopes st.cur "f" = some (.ref h) →
      nth st.objs h
        = some ⟨.functionObj fname [(p, dflt)] [.returnStmt (.identifier p)] env, fprops⟩ →
      (evalNode (f + 1 + 1 + 1 + 1) (.callExpr (.identifier "f") [.numberLit n]) st).1
        = .ok (.num n)) := by
  constructor
  · intro f st nm args h fname params body env fprops hl ho hne
    rw [evalNode_call_identifier, hl]
    simp only [ho]
    rw [if_neg hne]
  · intro f st h p dflt n env fname fprops hdr hl ho
    have hbp : bindParams [(p, dflt)] [(.num n : Value)] = [(p, .num n)] := rfl
    have hlook : lookupVar (st.scopes ++ [⟨[(p, Value.num n)], some env⟩])
        st.scopes.length p = some (.num n) := by
      simp [lookupVar, lookupChain, nth_concat_length, lookupAssoc]
    rw [evalNode_call_identifier, hl]
    simp only [ho, List.length_cons, List.length_nil, List.nil_append,
      evalArgsList, List.foldl, evalNode_numberLit, hbp, pushScope, runKids, hdr,
      Bool.false_eq_true, if_false, if_true, evalNode_returnStmt, evalNode_identifier,
      hlook]

/-- C4 witness: concrete instance of the amended theorem — the argument
value is bound; the default `99` plays no role. -/
theorem c4_witness :
    (evalNode 4 (.callExpr (.identifier "f") [.numberLit 5]) stWithDefault).1
      = .ok (.num 5) :=
  c4_call_arity_and_binding.2 0 stWithDefault 0 "p" (some (.numberLit 99)) 5 0
    (some "f") [] rfl rfl rfl

/-- C2: evaluating a function declaration allocates a `FunctionObject`
capturing the scope current at the declaration (its `env` field), binds
the name so it resolves from the current scope, and yields the closure;
a later call runs the body in a frame parented at the captured
environment, so a free variable resolves through the *defining* chain
`E`, whatever the caller's current scope is. -/
theorem c2_closure_captures_defining_scope :
    (∀ (f : Nat) (st : State) (nm : String) (params : List (String × Option Node))
        (body : List Node),
      st.cur < st.scopes.length →
      (evalNode (f + 1) (.functionDecl (some nm) params body) st).1
          = .ok (.ref st.objs.length) ∧
      nth (evalNode (f + 1) (.functionDecl (some nm) params body) st).2.objs
          st.objs.length
        = some ⟨.functionObj (some nm) params body st.cur, []⟩ ∧
      (evalNode (f + 1) (.functionDecl (some nm) params body) st).2.cur = st.cur ∧
      lookupVar (evalNode (f + 1) (.functionDecl (some nm) params body) st).2.scopes
          st.cur nm = some (.ref st.objs.length)) ∧
    (∀ (f : Nat) (st : State) (h E : Nat) (fname : Option String)
        (fprops : List (String × Value)),
      scopesWFb st.scopes = true → E < st.scopes.length → st.doReturn = false →
      lookupVar st.scopes st.cur "f" = some (.ref h) →
      nth st.objs h
        = some ⟨.functionObj fname [] [.returnStmt (.identifier "n")] E, fprops⟩ →
      (evalNode (f + 1 + 1 + 1 + 1) (.callExpr (.identifier "f") []) st).1
        = (match lookupVar st.scopes E "n" with
           | some v => .ok v
           | none => .exn .referenceError)) := by
  constructor
  · intro f st nm params body hcur
    have hstep : evalNode (f + 1) (.functionDecl (some nm) params body) st
        = (.ok (.ref st.objs.length),
           setVar (allocObj st ⟨.functionObj (some nm) params body st.cur, []⟩) nm
             (.ref st.objs.length)) := rfl
    rw [hstep]
    obtain ⟨hc, hobjs, _, hlk⟩ :=
      lookupVar_setVar (allocObj st ⟨.functionObj (some nm) params body st.cur, []⟩)
        nm (.ref st.objs.length) hcur
    refine ⟨rfl, ?_, hc, hlk⟩
    rw [hobjs]
    exact nth_concat_length st.objs _
  · intro f st h E fname fprops hwfb hE hdr hl ho
    have hwf : scopesWF st.scopes := scopesWF_of_b hwfb
    have hbp : bindParams [] ([] : List Value) = [] := rfl
    rw [evalNode_call_identifier, hl]
    simp only [ho, List.length_nil, if_true, evalArgsList, List.foldl, List.nil_append,
      hbp, pushScope, runKids, hdr, Bool.false_eq_true, if_false,
      evalNode_returnStmt, evalNode_identifier]
    have hlook : lookupVar (st.scopes ++ [⟨[], some E⟩]) st.scopes.length "n"
        = lookupVar st.scopes E "n" := by
      simp only [lookupVar, lookupChain, nth_concat_length, lookupAssoc]
      rw [lookupChain_append hwf ⟨[], some E⟩ st.scopes.length E hE]
      exact lookupChain_fuel hwf E st.scopes.length (E + 1) hE (by omega)
    rw [hlook]
    cases hn : lookupVar st.scopes E "n" with
    | some v => simp
    | none => simp

/-- C2 witness: concrete instance — the call returns the `n` visible in
the defining scope. -/
theorem c2_witness :
    (evalNode 4 (.callExpr (.identifier "f") []) stClosure).1 = .ok (.num 5) :=
  c2_closure_captures_defining_scope.2 0 stClosure 0 0 none [] rfl (by decide) rfl
    rfl rfl

/-- C6: number property keys are coerced to their decimal string form, so
a number key and its decimal-string equivalent address the same property,
both at the object model level (`Object::put`/`get`/`contains` through
`PropertyKey`) and when a member expression reads with a computed number
key. -/
theorem c6_number_key_collides_with_string :
    (∀ (o : Object) (n : Int) (v : Value),
      o.put (.ofNumber n) v = o.put (.ofString (toString n)) v ∧
      (o.put (.ofNumber n) v).get (.ofString (toString n)) = .ok v ∧
      (o.put (.ofString (toString n)) v).get (.ofNumber n) = .ok v ∧
      (o.put (.ofNumber n) v).contains (.ofString (toString n)) = true) ∧
    (∀ (f : Nat) (st : State) (h : Nat) (o : Object) (n : Int) (v : Value),
      nth st.objs h = some o →
      lookupAssoc o.props (toString n) = some v →
      lookupVar st.scopes st.cur "o" = some (.ref h) →
      (evalNode (f + 1 + 1) (.member (.identifier "o") (.numberLit n) true) st).1
        = .ok v) := by
  constructor
  · intro o n v
    refine ⟨rfl, ?_, ?_, ?_⟩
    · simp [Object.put, Object.get, PropertyKey.ofNumber, PropertyKey.ofString,
        lookupAssoc_insertReplace_self]
    · simp [Object.put, Object.get, PropertyKey.ofNumber, PropertyKey.ofString,
        lookupAssoc_insertReplace_self]
    · simp [Object.put, Object.contains, PropertyKey.ofNumber, PropertyKey.ofString,
        lookupAssoc_insertReplace_self]
  · intro f st h o n v ho hpv hl
    rw [evalNode_member, evalNode_identifier, hl]
    simp only [toObjectHandle, evalNode_numberLit, keyOfValue, ho, Object.contains,
      Object.get, PropertyKey.ofString, hpv, Option.isSome, if_true]

/-- C6 witness: reading `o[1]` finds the property stored under "1". -/
theorem c6_witness :
    (evalNode 2 (.member (.identifier "o") (.numberLit 1) true) stNumKey).1
      = .ok (.num 77) :=
  c6_number_key_collides_with_string.2 0 stNumKey 0 ⟨.plain, [("1", .num 77)]⟩ 1
    (.num 77) rfl rfl rfl

/-- C7 counterexample: `ObjectExpression::execute` iterates the
`std::map` of properties, i.e. ascending key order — for keys declared
`b` then `a`, the `a` entry's expression runs first and the `b` entry's
last, leaving `x = 1`, while the claimed declaration-order evaluation
would leave `x = 2`. -/
theorem c7_declaration_order_refuted :
    lookupVar (evalNode 4 (.objectExpr c7props) st0).2.scopes 0 "x" = some (.num 1) ∧
    lookupVar (objectExprDeclOrder 3 c7props st0).2.scopes 0 "x" = some (.num 2) ∧
    ¬(some (Value.num 1) = some (Value.num 2)) :=
  ⟨rfl, rfl, by decide⟩

/-- C7 (amended): the object literal's value expressions are evaluated in
the ascending key order in which `std::map` stores them (here `a` before
`b` although `b` was declared first), and the result is a freshly
allocated plain object — its handle is the heap size at entry — holding
the evaluated pairs. -/
theorem c7_map_order_and_fresh_allocation :
    ∀ (f : Nat) (e1 e2 : Node) (st : State) (v2 : Value) (st2 : State) (v1 : Value)
      (st3 : State),
      evalNode (f + 1) e2 (allocObj st ⟨.plain, []⟩) = (.ok v2, st2) →
      evalNode (f + 1) e1 (putAtHandle st2 st.objs.length "a" v2) = (.ok v1, st3) →
      evalNode (f + 1 + 1) (.objectExpr [("b", e1), ("a", e2)]) st
        = (.ok (.ref st.objs.length), putAtHandle st3 st.objs.length "b" v1) := by
  intro f e1 e2 st v2 st2 v1 st3 h2 h1
  have hs : sortProps [("b", e1), ("a", e2)] = [("a", e2), ("b", e1)] := rfl
  rw [evalNode_objectExpr, hs]
  simp only [putProps, List.foldl, h2, h1]

/-- C7 witness: concrete instance of the amended theorem. -/
theorem c7_witness :
    evalNode 2 (.objectExpr [("b", .numberLit 1), ("a", .numberLit 2)]) st0
      = (.ok (.ref 0),
         putAtHandle (putAtHandle (allocObj st0 ⟨.plain, []⟩) 0 "a" (.num 2)) 0 "b"
           (.num 1)) :=
  c7_map_order_and_fresh_allocation 0 (.numberLit 1) (.numberLit 2) st0 (.num 2)
    (allocObj st0 ⟨.plain, []⟩) (.num 1)
    (putAtHandle (allocObj st0 ⟨.plain, []⟩) 0 "a" (.num 2)) rfl rfl

/-- C9: loading an FFI module throws FileNotFound when the library cannot
be loaded, ReferenceError when `OreInitialize` is absent, and otherwise
yields an object whose properties are references to freshly allocated
native callables, one per export; the object stores the library handle
and its destructor closes exactly that handle. -/
theorem c9_ffi_load_contract :
    (∀ (host : List (String × FFILib)) (heapLen : Nat) (filename : String),
      dlopenModel host filename = none →
      FFIObject.construct host heapLen filename = (⟨none, []⟩, some .fileNotFound, [])) ∧
    (∀ (host : List (String × FFILib)) (heapLen : Nat) (filename : String) (h : Nat)
        (lib : FFILib),
      dlopenModel host filename = some (h, lib) → lib.hasInit = false →
      FFIObject.construct host heapLen filename
          = (⟨some h, []⟩, some .referenceError, []) ∧
      FFIObject.destructorCloses (FFIObject.construct host heapLen filename).1
        = some h) ∧
    (∀ (host : List (String × FFILib)) (heapLen : Nat) (filename : String) (h : Nat)
        (lib : FFILib),
      dlopenModel host filename = some (h, lib) → lib.hasInit = true →
      FFIObject.construct host heapLen filename
          = (⟨some h, exportProps heapLen lib.exports⟩, none,
             lib.exports.map (fun p => ⟨.nativeFunc p.2, []⟩)) ∧
      (∀ (i : Nat) (enm : String) (fn : List Value → Value),
        nth lib.exports i = some (enm, fn) →
        nth (exportProps heapLen lib.exports) i = some (enm, .ref (heapLen + i)) ∧
        nth (lib.exports.map (fun p => (⟨.nativeFunc p.2, []⟩ : Object))) i
          = some ⟨.nativeFunc fn, []⟩) ∧
      FFIObject.destructorCloses (FFIObject.construct host heapLen filename).1
        = some h) := by
  refine ⟨?_, ?_, ?_⟩
  · intro host heapLen filename hdl
    simp [FFIObject.construct, hdl]
  · intro host heapLen filename h lib hdl hinit
    constructor
    · simp [FFIObject.construct, hdl, hinit]
    · simp [FFIObject.construct, FFIObject.destructorCloses, hdl, hinit]
  · intro host heapLen filename h lib hdl hinit
    refine ⟨?_, ?_, ?_⟩
    · simp [FFIObject.construct, hdl, hinit]
    · intro i enm fn hin
      constructor
      · exact exportProps_nth lib.exports heapLen i enm fn hin
      · rw [nth_map, hin]; rfl
    · simp [FFIObject.construct, FFIObject.destructorCloses, hdl, hinit]

/-- C9 witness: a one-export library loads into an object with one
native-callable property and the handle it was opened with. -/
theorem c9_witness :
    FFIObject.construct [("libm.so", ⟨true, [("sqrt", fun _ => Value.nil)]⟩)] 7 "libm.so"
      = (⟨some 0, [("sqrt", .ref 7)]⟩, none, [⟨.nativeFunc (fun _ => Value.nil), []⟩]) :=
  (c9_ffi_load_contract.2.2 [("libm.so", ⟨true, [("sqrt", fun _ => Value.nil)]⟩)] 7
    "libm.so" 0 ⟨true, [("sqrt", fun _ => Value.nil)]⟩ rfl rfl).1

end Ore

